import Mathlib

/-!
Verification of the core of a terminal database client against its
natural-language specification.  The development shallowly embeds the
Rust sources:

* `src/db/connection.rs` — backend dispatch (`DatabaseConnection::connect`),
  catalog loading (`get_tables`), query execution (`execute_query`) and the
  per-backend value normalizers (`extract_pg_value`, `extract_mysql_value`,
  `extract_sqlite_value`);
* `src/ui/sidebar.rs` — the schema/table tree model (`TreeState`);
* `src/ui/results.rs` — the result grid model (`ResultsState`) and the
  viewport / column-width / cell-display logic of `render_results`;
* `src/main.rs` — the query-running caller (`execute_query`) and the
  default table query.

Rust strings are modelled as lists of unicode scalar values (`List Char`);
machine integers that the code only converts to text are modelled as `Int`.
-/

namespace Crux

/-- Strings of the Rust code, modelled as their sequence of unicode scalar
values. -/
abbrev Str := List Char

/-- Coercion from a Lean string literal to the model string type. -/
def strOf (s : String) : Str := s.data

/-- The character produced for a decimal digit value, as in Rust integer
formatting. -/
def digitChar (n : Nat) : Char := Char.ofNat (48 + n)

/-- Digit accumulation loop of decimal formatting of a natural number
(least significant digit is computed first and consed onto `acc`).  The
first argument is structural fuel; `natToStr` supplies enough of it that
the `0` case is never reached, since the value shrinks by a factor of ten
per step. -/
def natToStrAux : Nat → Nat → Str → Str
  | 0, _, acc => acc
  | fuel + 1, n, acc =>
    let d := digitChar (n % 10)
    if n / 10 = 0 then d :: acc
    else natToStrAux fuel (n / 10) (d :: acc)

/-- Decimal rendering of a natural number (`u64::to_string` and friends). -/
def natToStr (n : Nat) : Str := natToStrAux (n + 1) n []

/-- Decimal rendering of a signed integer (`i64::to_string` and friends). -/
def intToStr (i : Int) : Str :=
  if i < 0 then '-' :: natToStr i.natAbs else natToStr i.toNat

/-- Rendering of a boolean (`bool::to_string`). -/
def boolToStr (b : Bool) : Str := if b then strOf "true" else strOf "false"

/-- Lower-case hex digit, as produced by the `hex` crate. -/
def hexDigit (n : Nat) : Char :=
  if n < 10 then Char.ofNat (48 + n) else Char.ofNat (87 + n)

/-- Two hex digits of one byte. -/
def hexByte (b : Nat) : Str := [hexDigit (b / 16 % 16), hexDigit (b % 16)]

/-- `hex::encode` on a byte sequence (bytes modelled as naturals < 256). -/
def hexEncode (bs : List Nat) : Str := (bs.map hexByte).flatten

/-- The single-quote character, used by the SQLite blob rendering
`X'...'`. -/
def squote : Char := Char.ofNat 39

theorem natToStrAux_ne_nil (fuel n : Nat) (acc : Str) (h : acc ≠ [] ∨ 0 < fuel) :
    natToStrAux fuel n acc ≠ [] := by
  induction fuel generalizing n acc with
  | zero => simpa [natToStrAux] using h.resolve_right (by omega)
  | succ fuel ih =>
    simp only [natToStrAux]
    split
    · simp
    · exact ih (n / 10) (digitChar (n % 10) :: acc) (Or.inl (by simp))

theorem natToStr_ne_nil (n : Nat) : natToStr n ≠ [] :=
  natToStrAux_ne_nil (n + 1) n [] (Or.inr (by omega))

theorem intToStr_ne_nil (i : Int) : intToStr i ≠ [] := by
  unfold intToStr
  split
  · simp
  · exact natToStr_ne_nil _

theorem boolToStr_ne_nil (b : Bool) : boolToStr b ≠ [] := by
  cases b <;> simp [boolToStr, strOf]

/-- Model of one decoded column value as the extract functions observe it
through sqlx.  `typeName` is `value_ref.type_info().name()` and `isNull` is
`value_ref.is_null()`.  Each `get…` field is the outcome of
`row.try_get::<T>(idx)` at the corresponding Rust type, `none` modelling a
decode error.  Driver types whose only use in the code is `to_string`
(floats, `BigDecimal`, `Uuid`, the chrono types, `JsonValue`) are carried
as their rendered text; `renders_ne` records the driver fact that none of
those `to_string` renderings is the empty string. -/
structure RawValue where
  typeName : Str
  isNull : Bool
  getBool : Option Bool
  getI8 : Option Int
  getI16 : Option Int
  getI32 : Option Int
  getI64 : Option Int
  getF32 : Option Str
  getF64 : Option Str
  getDecimal : Option Str
  getStr : Option Str
  getUuid : Option Str
  getDate : Option Str
  getTime : Option Str
  getDateTime : Option Str
  getDateTimeTz : Option Str
  getJson : Option Str
  getBytes : Option (List Nat)
  renders_ne :
    getF32 ≠ some [] ∧ getF64 ≠ some [] ∧ getDecimal ≠ some [] ∧
    getUuid ≠ some [] ∧ getDate ≠ some [] ∧ getTime ≠ some [] ∧
    getDateTime ≠ some [] ∧ getDateTimeTz ≠ some [] ∧ getJson ≠ some []

/-- The arms of the `match type_name` block of `extract_pg_value`
(`src/db/connection.rs:185-270`): one constructor per arm, `other` for the
wildcard. -/
inductive PgTy
  | bool | i16 | i32 | i64 | f32 | f64 | numeric | text | uuid
  | date | time | timestamp | timestamptz | json | bytea | inet | other
deriving DecidableEq

/-- Which arm of `extract_pg_value`'s `match type_name` a given type name
selects (the string patterns of `src/db/connection.rs:185-270`). -/
def pgTyOf (t : Str) : PgTy :=
  if t = strOf "BOOL" then .bool
  else if t = strOf "INT2" ∨ t = strOf "SMALLINT" ∨ t = strOf "SMALLSERIAL" then .i16
  else if t = strOf "INT4" ∨ t = strOf "INT" ∨ t = strOf "INTEGER" ∨ t = strOf "SERIAL" then .i32
  else if t = strOf "INT8" ∨ t = strOf "BIGINT" ∨ t = strOf "BIGSERIAL" then .i64
  else if t = strOf "FLOAT4" ∨ t = strOf "REAL" then .f32
  else if t = strOf "FLOAT8" ∨ t = strOf "DOUBLE PRECISION" then .f64
  else if t = strOf "NUMERIC" ∨ t = strOf "DECIMAL" then .numeric
  else if t = strOf "TEXT" ∨ t = strOf "VARCHAR" ∨ t = strOf "CHAR" ∨
      t = strOf "BPCHAR" ∨ t = strOf "NAME" then .text
  else if t = strOf "UUID" then .uuid
  else if t = strOf "DATE" then .date
  else if t = strOf "TIME" ∨ t = strOf "TIMETZ" then .time
  else if t = strOf "TIMESTAMP" then .timestamp
  else if t = strOf "TIMESTAMPTZ" then .timestamptz
  else if t = strOf "JSON" ∨ t = strOf "JSONB" then .json
  else if t = strOf "BYTEA" then .bytea
  else if t = strOf "INET" ∨ t = strOf "CIDR" then .inet
  else .other

/-- The `match type_name` block of `extract_pg_value`
(`src/db/connection.rs:185-270`).  A result of `none` means the match fell
through — either the type name is unrecognized or every `try_get` of the
taken arm failed — and control continues with the fallback chain. -/
def pgMatchArm (rv : RawValue) : Option Str :=
  match pgTyOf rv.typeName with
  | .bool => rv.getBool.map boolToStr
  | .i16 => rv.getI16.map intToStr
  | .i32 => rv.getI32.map intToStr
  | .i64 => rv.getI64.map intToStr
  | .f32 => rv.getF32
  | .f64 => rv.getF64
  | .numeric => rv.getDecimal.or rv.getF64
  | .text => rv.getStr
  | .uuid => rv.getUuid
  | .date => rv.getDate
  | .time => rv.getTime
  | .timestamp => rv.getDateTime
  | .timestamptz => rv.getDateTimeTz
  | .json => rv.getJson
  | .bytea => rv.getBytes.map (fun bs => strOf "\\x" ++ hexEncode bs)
  | .inet => rv.getStr
  | .other => none

/-- The terminal fallback chain shared by `extract_pg_value` and
`extract_mysql_value` (`src/db/connection.rs:273-278` and `367-372`):
`try_get` as String, i64, i32, f64, bool in order, else `"NULL"`.  The
argument is `none` when `try_get_raw` failed, in which case every `try_get`
on the same index fails as well. -/
def pgFallbackChain (v : Option RawValue) : Str :=
  match v with
  | none => strOf "NULL"
  | some rv =>
    ((((rv.getStr.or
        (rv.getI64.map intToStr)).or
        (rv.getI32.map intToStr)).or
        rv.getF64).or
        (rv.getBool.map boolToStr)).getD (strOf "NULL")

/-- `extract_pg_value` (`src/db/connection.rs:174-279`), as a function of
the observed raw value (`none` = `try_get_raw` failed). -/
def extract_pg_value (v : Option RawValue) : Str :=
  match v with
  | none => pgFallbackChain none
  | some rv =>
    if rv.isNull then strOf "NULL"
    else
      match pgMatchArm rv with
      | some s => s
      | none => pgFallbackChain (some rv)

/-- The arms of the `match type_name` block of `extract_mysql_value`
(`src/db/connection.rs:292-364`). -/
inductive MyTy
  | bool | i8 | i16 | i32 | i64 | f32 | f64 | decimal | text
  | date | time | datetime | json | blob | other
deriving DecidableEq

/-- Which arm of `extract_mysql_value`'s `match type_name` a given type
name selects. -/
def myTyOf (t : Str) : MyTy :=
  if t = strOf "BOOLEAN" ∨ t = strOf "TINYINT(1)" then .bool
  else if t = strOf "TINYINT" then .i8
  else if t = strOf "SMALLINT" then .i16
  else if t = strOf "INT" ∨ t = strOf "MEDIUMINT" then .i32
  else if t = strOf "BIGINT" then .i64
  else if t = strOf "FLOAT" then .f32
  else if t = strOf "DOUBLE" then .f64
  else if t = strOf "DECIMAL" then .decimal
  else if t = strOf "VARCHAR" ∨ t = strOf "CHAR" ∨ t = strOf "TEXT" ∨
      t = strOf "TINYTEXT" ∨ t = strOf "MEDIUMTEXT" ∨ t = strOf "LONGTEXT" ∨
      t = strOf "ENUM" ∨ t = strOf "SET" then .text
  else if t = strOf "DATE" then .date
  else if t = strOf "TIME" then .time
  else if t = strOf "DATETIME" ∨ t = strOf "TIMESTAMP" then .datetime
  else if t = strOf "JSON" then .json
  else if t = strOf "BLOB" ∨ t = strOf "TINYBLOB" ∨ t = strOf "MEDIUMBLOB" ∨
      t = strOf "LONGBLOB" ∨ t = strOf "BINARY" ∨ t = strOf "VARBINARY" then .blob
  else .other

/-- The `match type_name` block of `extract_mysql_value`
(`src/db/connection.rs:292-364`). -/
def mysqlMatchArm (rv : RawValue) : Option Str :=
  match myTyOf rv.typeName with
  | .bool => rv.getBool.map boolToStr
  | .i8 => rv.getI8.map intToStr
  | .i16 => rv.getI16.map intToStr
  | .i32 => rv.getI32.map intToStr
  | .i64 => rv.getI64.map intToStr
  | .f32 => rv.getF32
  | .f64 => rv.getF64
  | .decimal => rv.getDecimal
  | .text => rv.getStr
  | .date => rv.getDate
  | .time => rv.getTime
  | .datetime => rv.getDateTime
  | .json => rv.getJson
  | .blob => rv.getBytes.map (fun bs => strOf "0x" ++ hexEncode bs)
  | .other => none

/-- `extract_mysql_value` (`src/db/connection.rs:281-373`). -/
def extract_mysql_value (v : Option RawValue) : Str :=
  match v with
  | none => pgFallbackChain none
  | some rv =>
    if rv.isNull then strOf "NULL"
    else
      match mysqlMatchArm rv with
      | some s => s
      | none => pgFallbackChain (some rv)

/-- The `X'...'` rendering of a SQLite blob. -/
def sqliteBlobStr (bs : List Nat) : Str :=
  'X' :: squote :: (hexEncode bs ++ [squote])

/-- The arms of the `match type_name` block of `extract_sqlite_value`
(`src/db/connection.rs:386-429`). -/
inductive SqTy
  | integer | real | text | blob | bool | date | datetime | other
deriving DecidableEq

/-- Which arm of `extract_sqlite_value`'s `match type_name` a given type
name selects. -/
def sqTyOf (t : Str) : SqTy :=
  if t = strOf "INTEGER" then .integer
  else if t = strOf "REAL" then .real
  else if t = strOf "TEXT" then .text
  else if t = strOf "BLOB" then .blob
  else if t = strOf "BOOLEAN" then .bool
  else if t = strOf "DATE" then .date
  else if t = strOf "DATETIME" ∨ t = strOf "TIMESTAMP" then .datetime
  else .other

/-- The `match type_name` block of `extract_sqlite_value`
(`src/db/connection.rs:386-429`). -/
def sqliteMatchArm (rv : RawValue) : Option Str :=
  match sqTyOf rv.typeName with
  | .integer => rv.getI64.map intToStr
  | .real => rv.getF64
  | .text => rv.getStr
  | .blob => rv.getBytes.map sqliteBlobStr
  | .bool => rv.getBool.map boolToStr
  | .date => rv.getDate.or rv.getStr
  | .datetime => rv.getDateTime.or rv.getStr
  | .other => none

/-- The terminal fallback chain of `extract_sqlite_value`
(`src/db/connection.rs:432-437`): `try_get` as String, i64, f64, bool,
`Vec<u8>` in order, else `"NULL"`. -/
def sqliteFallbackChain (v : Option RawValue) : Str :=
  match v with
  | none => strOf "NULL"
  | some rv =>
    ((((rv.getStr.or
        (rv.getI64.map intToStr)).or
        rv.getF64).or
        (rv.getBool.map boolToStr)).or
        (rv.getBytes.map sqliteBlobStr)).getD (strOf "NULL")

/-- `extract_sqlite_value` (`src/db/connection.rs:375-438`). -/
def extract_sqlite_value (v : Option RawValue) : Str :=
  match v with
  | none => sqliteFallbackChain none
  | some rv =>
    if rv.isNull then strOf "NULL"
    else
      match sqliteMatchArm rv with
      | some s => s
      | none => sqliteFallbackChain (some rv)

theorem someOr {α : Type} (a : α) (b : Option α) : (some a).or b = some a := rfl

theorem pgMatchArm_nil (rv : RawValue) (h : pgMatchArm rv = some []) :
    rv.getStr = some [] := by
  obtain ⟨hf32, hf64, hdec, huuid, hdate, htime, hdt, hdtz, hjson⟩ := rv.renders_ne
  unfold pgMatchArm at h
  rcases hty : pgTyOf rv.typeName <;> rw [hty] at h <;>
    first
      | exact h
      | exact absurd h hf32
      | exact absurd h hf64
      | exact absurd h huuid
      | exact absurd h hdate
      | exact absurd h htime
      | exact absurd h hdt
      | exact absurd h hdtz
      | exact absurd h hjson
      | exact Option.noConfusion h
      | (simp only [Option.map_eq_some'] at h
         obtain ⟨b, hb1, hb2⟩ := h
         first
           | exact absurd hb2 (intToStr_ne_nil b)
           | exact absurd hb2 (boolToStr_ne_nil b)
           | (simp only [List.append_eq_nil] at hb2
              exact absurd hb2.1 (by decide)))
      | (cases ho : rv.getDecimal with
         | none =>
             rw [ho, Option.none_or] at h
             exact absurd h hf64
         | some d =>
             rw [ho] at h
             have h2 : (some d : Option Str) = some [] := h
             injection h2 with h3
             subst h3
             exact absurd ho hdec)

theorem mysqlMatchArm_nil (rv : RawValue) (h : mysqlMatchArm rv = some []) :
    rv.getStr = some [] := by
  obtain ⟨hf32, hf64, hdec, huuid, hdate, htime, hdt, hdtz, hjson⟩ := rv.renders_ne
  unfold mysqlMatchArm at h
  rcases hty : myTyOf rv.typeName <;> rw [hty] at h <;>
    first
      | exact h
      | exact absurd h hf32
      | exact absurd h hf64
      | exact absurd h hdec
      | exact absurd h hdate
      | exact absurd h htime
      | exact absurd h hdt
      | exact absurd h hjson
      | exact Option.noConfusion h
      | (simp only [Option.map_eq_some'] at h
         obtain ⟨b, hb1, hb2⟩ := h
         first
           | exact absurd hb2 (intToStr_ne_nil b)
           | exact absurd hb2 (boolToStr_ne_nil b)
           | (simp only [List.append_eq_nil] at hb2
              exact absurd hb2.1 (by decide)))

theorem sqliteBlobStr_ne_nil (bs : List Nat) : sqliteBlobStr bs ≠ [] := by
  simp [sqliteBlobStr]

theorem sqliteMatchArm_nil (rv : RawValue) (h : sqliteMatchArm rv = some []) :
    rv.getStr = some [] := by
  obtain ⟨hf32, hf64, hdec, huuid, hdate, htime, hdt, hdtz, hjson⟩ := rv.renders_ne
  unfold sqliteMatchArm at h
  rcases hty : sqTyOf rv.typeName <;> rw [hty] at h <;>
    first
      | exact h
      | exact absurd h hf64
      | exact Option.noConfusion h
      | (simp only [Option.map_eq_some'] at h
         obtain ⟨b, hb1, hb2⟩ := h
         first
           | exact absurd hb2 (intToStr_ne_nil b)
           | exact absurd hb2 (boolToStr_ne_nil b)
           | exact absurd hb2 (sqliteBlobStr_ne_nil b))
      | (cases ho : rv.getDate with
         | none =>
             rw [ho, Option.none_or] at h
             exact h
         | some d =>
             rw [ho] at h
             have h2 : (some d : Option Str) = some [] := h
             injection h2 with h3
             subst h3
             exact absurd ho hdate)
      | (cases ho : rv.getDateTime with
         | none =>
             rw [ho, Option.none_or] at h
             exact h
         | some d =>
             rw [ho] at h
             have h2 : (some d : Option Str) = some [] := h
             injection h2 with h3
             subst h3
             exact absurd ho hdt)

theorem pgFallbackChain_nil (rv : RawValue) (h : pgFallbackChain (some rv) = []) :
    rv.getStr = some [] := by
  obtain ⟨hf32, hf64, hdec, huuid, hdate, htime, hdt, hdtz, hjson⟩ := rv.renders_ne
  rcases hs : rv.getStr with _ | s <;>
    rcases h64 : rv.getI64 with _ | a <;>
      rcases h32 : rv.getI32 with _ | b <;>
        rcases hf : rv.getF64 with _ | f <;>
          rcases hb : rv.getBool with _ | c <;>
            simp only [pgFallbackChain, hs, h64, h32, hf, hb, someOr,
              Option.none_or, Option.map_some', Option.map_none',
              Option.getD_some, Option.getD_none] at h <;>
            first
              | rfl
              | exact absurd h (by decide)
              | exact absurd h (intToStr_ne_nil a)
              | exact absurd h (intToStr_ne_nil b)
              | exact absurd h (boolToStr_ne_nil c)
              | (subst h; rfl)
              | (subst h; exact absurd hf hf64)

theorem sqliteFallbackChain_nil (rv : RawValue)
    (h : sqliteFallbackChain (some rv) = []) : rv.getStr = some [] := by
  obtain ⟨hf32, hf64, hdec, huuid, hdate, htime, hdt, hdtz, hjson⟩ := rv.renders_ne
  rcases hs : rv.getStr with _ | s <;>
    rcases h64 : rv.getI64 with _ | a <;>
      rcases hf : rv.getF64 with _ | f <;>
        rcases hb : rv.getBool with _ | c <;>
          rcases hby : rv.getBytes with _ | bs <;>
            simp only [sqliteFallbackChain, hs, h64, hf, hb, hby, someOr,
              Option.none_or, Option.map_some', Option.map_none',
              Option.getD_some, Option.getD_none] at h <;>
            first
              | rfl
              | exact absurd h (by decide)
              | exact absurd h (intToStr_ne_nil a)
              | exact absurd h (boolToStr_ne_nil c)
              | exact absurd h (sqliteBlobStr_ne_nil bs)
              | (subst h; rfl)
              | (subst h; exact absurd hf hf64)

/-- A raw value of the given type name with every typed extraction
failing: the building block for concrete test values. -/
def mkRaw (t : Str) : RawValue :=
  { typeName := t, isNull := false, getBool := none, getI8 := none,
    getI16 := none, getI32 := none, getI64 := none, getF32 := none,
    getF64 := none, getDecimal := none, getStr := none, getUuid := none,
    getDate := none, getTime := none, getDateTime := none,
    getDateTimeTz := none, getJson := none, getBytes := none,
    renders_ne := by decide }

/-- A non-null Postgres `TEXT` value holding the empty string: `try_get`
at `String` succeeds and returns `""`. -/
def emptyTextVal : RawValue := { mkRaw (strOf "TEXT") with getStr := some [] }

theorem extract_pg_value_nil (rv : RawValue) (h0 : rv.isNull = false)
    (h : extract_pg_value (some rv) = []) : rv.getStr = some [] := by
  simp only [extract_pg_value, h0, Bool.false_eq_true, if_false] at h
  cases harm : pgMatchArm rv with
  | some s =>
    rw [harm] at h
    have hs : s = [] := h
    exact pgMatchArm_nil rv (by rw [harm, hs])
  | none =>
    rw [harm] at h
    exact pgFallbackChain_nil rv h

theorem extract_mysql_value_nil (rv : RawValue) (h0 : rv.isNull = false)
    (h : extract_mysql_value (some rv) = []) : rv.getStr = some [] := by
  simp only [extract_mysql_value, h0, Bool.false_eq_true, if_false] at h
  cases harm : mysqlMatchArm rv with
  | some s =>
    rw [harm] at h
    have hs : s = [] := h
    exact mysqlMatchArm_nil rv (by rw [harm, hs])
  | none =>
    rw [harm] at h
    exact pgFallbackChain_nil rv h

theorem extract_sqlite_value_nil (rv : RawValue) (h0 : rv.isNull = false)
    (h : extract_sqlite_value (some rv) = []) : rv.getStr = some [] := by
  simp only [extract_sqlite_value, h0, Bool.false_eq_true, if_false] at h
  cases harm : sqliteMatchArm rv with
  | some s =>
    rw [harm] at h
    have hs : s = [] := h
    exact sqliteMatchArm_nil rv (by rw [harm, hs])
  | none =>
    rw [harm] at h
    exact sqliteFallbackChain_nil rv h

/-- C1, counterexample.  The claim asserts every type-name/value pair
yields a non-empty display string; but a non-null `TEXT` value holding the
empty string is rendered verbatim as the empty string by the Postgres
normalizer. -/
theorem c1_nonempty_counterexample :
    extract_pg_value (some emptyTextVal) = strOf "" := by decide

/-- C1, amended.  For every backend the value normalizer is total (it is a
function to display strings); a null raw value — and a failed
`try_get_raw` — always yields exactly `"NULL"`; and the display string is
non-empty except when the string extraction of the value itself returns
the empty string (text values are rendered verbatim). -/
theorem c1_normalizer_amended (rv : RawValue) :
    (rv.isNull = true →
      extract_pg_value (some rv) = strOf "NULL" ∧
      extract_mysql_value (some rv) = strOf "NULL" ∧
      extract_sqlite_value (some rv) = strOf "NULL") ∧
    (extract_pg_value (some rv) = [] → rv.getStr = some []) ∧
    (extract_mysql_value (some rv) = [] → rv.getStr = some []) ∧
    (extract_sqlite_value (some rv) = [] → rv.getStr = some []) ∧
    extract_pg_value none = strOf "NULL" ∧
    extract_mysql_value none = strOf "NULL" ∧
    extract_sqlite_value none = strOf "NULL" := by
  refine ⟨fun hnull => ?_, fun h => ?_, fun h => ?_, fun h => ?_, rfl, rfl, rfl⟩
  · refine ⟨?_, ?_, ?_⟩ <;> simp [extract_pg_value, extract_mysql_value,
      extract_sqlite_value, hnull]
  · cases h0 : rv.isNull with
    | true =>
      simp only [extract_pg_value, h0, if_true] at h
      exact absurd h (by decide)
    | false => exact extract_pg_value_nil rv h0 h
  · cases h0 : rv.isNull with
    | true =>
      simp only [extract_mysql_value, h0, if_true] at h
      exact absurd h (by decide)
    | false => exact extract_mysql_value_nil rv h0 h
  · cases h0 : rv.isNull with
    | true =>
      simp only [extract_sqlite_value, h0, if_true] at h
      exact absurd h (by decide)
    | false => exact extract_sqlite_value_nil rv h0 h

/-- C1, witness: the amended theorem applied at a concrete null SQLite
integer value. -/
theorem c1_normalizer_amended_witness :
    extract_sqlite_value (some { mkRaw (strOf "INTEGER") with isNull := true }) =
      strOf "NULL" :=
  ((c1_normalizer_amended { mkRaw (strOf "INTEGER") with isNull := true }).1 rfl).2.2

/-- Modelled from the spec's words (§4.1): on an unknown type name,
"attempt typed extraction in this fallback order: string, 64-bit integer,
32-bit integer, double, boolean; if all fail, render NULL". -/
def specFallbackChain (rv : RawValue) : Str :=
  match rv.getStr with
  | some s => s
  | none =>
    match rv.getI64 with
    | some n => intToStr n
    | none =>
      match rv.getI32 with
      | some n => intToStr n
      | none =>
        match rv.getF64 with
        | some f => f
        | none =>
          match rv.getBool with
          | some b => boolToStr b
          | none => strOf "NULL"

/-- The fallback order the SQLite normalizer actually implements
(`src/db/connection.rs:432-437`): string, 64-bit integer, double, boolean,
byte blob (rendered in `X'...'` form); if all fail, `"NULL"`. -/
def specSqliteFallback (rv : RawValue) : Str :=
  match rv.getStr with
  | some s => s
  | none =>
    match rv.getI64 with
    | some n => intToStr n
    | none =>
      match rv.getF64 with
      | some f => f
      | none =>
        match rv.getBool with
        | some b => boolToStr b
        | none =>
          match rv.getBytes with
          | some bs => sqliteBlobStr bs
          | none => strOf "NULL"

theorem specFallbackChain_eq (rv : RawValue) :
    specFallbackChain rv = pgFallbackChain (some rv) := by
  rcases hs : rv.getStr with _ | s <;>
    rcases h64 : rv.getI64 with _ | a <;>
      rcases h32 : rv.getI32 with _ | b <;>
        rcases hf : rv.getF64 with _ | f <;>
          rcases hb : rv.getBool with _ | c <;>
            simp [specFallbackChain, pgFallbackChain, hs, h64, h32, hf, hb, someOr]

theorem specSqliteFallback_eq (rv : RawValue) :
    specSqliteFallback rv = sqliteFallbackChain (some rv) := by
  rcases hs : rv.getStr with _ | s <;>
    rcases h64 : rv.getI64 with _ | a <;>
      rcases hf : rv.getF64 with _ | f <;>
        rcases hb : rv.getBool with _ | c <;>
          rcases hby : rv.getBytes with _ | bs <;>
            simp [specSqliteFallback, sqliteFallbackChain, hs, h64, hf, hb, hby,
              someOr]

theorem extract_pg_fallthrough (rv : RawValue) (h0 : rv.isNull = false)
    (harm : pgMatchArm rv = none) :
    extract_pg_value (some rv) = pgFallbackChain (some rv) := by
  simp [extract_pg_value, h0, harm]

theorem extract_mysql_fallthrough (rv : RawValue) (h0 : rv.isNull = false)
    (harm : mysqlMatchArm rv = none) :
    extract_mysql_value (some rv) = pgFallbackChain (some rv) := by
  simp [extract_mysql_value, h0, harm]

theorem extract_sqlite_fallthrough (rv : RawValue) (h0 : rv.isNull = false)
    (harm : sqliteMatchArm rv = none) :
    extract_sqlite_value (some rv) = sqliteFallbackChain (some rv) := by
  simp [extract_sqlite_value, h0, harm]

/-- A non-null SQLite value of the (unhandled) declared type `NUMERIC`
whose only successful typed extraction is the 32-bit integer one. -/
def numericI32Val : RawValue := { mkRaw (strOf "NUMERIC") with getI32 := some 7 }

/-- A non-null SQLite value of the (unhandled) declared type `NUMERIC`
whose only successful typed extraction is the byte-blob one. -/
def numericBlobVal : RawValue :=
  { mkRaw (strOf "NUMERIC") with getBytes := some [171] }

/-- C2, counterexample.  The claim asserts the SQLite fallback order is
string, i64, i32, double, boolean with `"NULL"` when all fail.  The code's
SQLite chain never attempts i32 (a value whose i32 extraction alone
succeeds renders `"NULL"`, where the claimed order would render `"7"`),
and it does attempt a byte-blob extraction (a value whose blob extraction
alone succeeds renders `X'ab'`, where the claimed order would render
`"NULL"`). -/
theorem c2_fallback_order_counterexample :
    extract_sqlite_value (some numericI32Val) = strOf "NULL" ∧
    specFallbackChain numericI32Val = strOf "7" ∧
    extract_sqlite_value (some numericBlobVal) = sqliteBlobStr [171] ∧
    sqliteBlobStr [171] ≠ strOf "NULL" ∧
    specFallbackChain numericBlobVal = strOf "NULL" := by
  refine ⟨by decide, by decide, by decide, by decide, by decide⟩

/-- C2, amended.  For the Postgres and MySQL normalizers, an unknown type
name — or a recognized arm whose typed extraction fails — leads to typed
extraction in the order string, i64, i32, double, boolean, with `"NULL"`
when all fail.  For the SQLite normalizer the order is string, i64,
double, boolean, byte blob (rendered `X'...'`), with `"NULL"` when all
fail. -/
theorem c2_fallback_order_amended (rv : RawValue) (h0 : rv.isNull = false) :
    (pgTyOf rv.typeName = .other →
      extract_pg_value (some rv) = specFallbackChain rv) ∧
    (pgMatchArm rv = none →
      extract_pg_value (some rv) = specFallbackChain rv) ∧
    (myTyOf rv.typeName = .other →
      extract_mysql_value (some rv) = specFallbackChain rv) ∧
    (mysqlMatchArm rv = none →
      extract_mysql_value (some rv) = specFallbackChain rv) ∧
    (sqTyOf rv.typeName = .other →
      extract_sqlite_value (some rv) = specSqliteFallback rv) ∧
    (sqliteMatchArm rv = none →
      extract_sqlite_value (some rv) = specSqliteFallback rv) := by
  have hpg : pgMatchArm rv = none →
      extract_pg_value (some rv) = specFallbackChain rv := fun harm =>
    (extract_pg_fallthrough rv h0 harm).trans (specFallbackChain_eq rv).symm
  have hmy : mysqlMatchArm rv = none →
      extract_mysql_value (some rv) = specFallbackChain rv := fun harm =>
    (extract_mysql_fallthrough rv h0 harm).trans (specFallbackChain_eq rv).symm
  have hsq : sqliteMatchArm rv = none →
      extract_sqlite_value (some rv) = specSqliteFallback rv := fun harm =>
    (extract_sqlite_fallthrough rv h0 harm).trans (specSqliteFallback_eq rv).symm
  exact ⟨fun hty => hpg (by simp [pgMatchArm, hty]), hpg,
    fun hty => hmy (by simp [mysqlMatchArm, hty]), hmy,
    fun hty => hsq (by simp [sqliteMatchArm, hty]), hsq⟩

/-- C2, witness: the amended theorem applied at a concrete value of
unknown type name whose i32 extraction succeeds, for each backend. -/
theorem c2_fallback_order_amended_witness :
    extract_pg_value (some numericI32Val) = specFallbackChain numericI32Val ∧
    extract_sqlite_value (some numericI32Val) = specSqliteFallback numericI32Val :=
  ⟨(c2_fallback_order_amended numericI32Val rfl).2.1 (by decide),
   (c2_fallback_order_amended numericI32Val rfl).2.2.2.2.1 (by decide)⟩

/-- `TableInfo` (`src/db/mod.rs`): one catalog table reference. -/
structure TableInfo where
  name : Str
  schema : Str
deriving DecidableEq

/-- `TreeNode` (`src/ui/sidebar.rs:13-17`). -/
inductive TreeNode
  | schema (name : Str) (expanded : Bool)
  | table (schema : Str) (name : Str)
deriving DecidableEq

/-- `TreeState` (`src/ui/sidebar.rs:19-24`). -/
structure TreeState where
  nodes : List TreeNode
  selected : Nat
  scroll_offset : Nat
deriving DecidableEq

/-- Insertion into the sorted association list that models the
`BTreeMap<&str, Vec<&str>>` of `from_tables` (`src/ui/sidebar.rs:28-31`):
keys are kept in ascending byte order and a new name is pushed at the end
of its schema's vector, exactly what
`grouped.entry(&t.schema).or_default().push(&t.name)` does. -/
def groupIns : List (Str × List Str) → Str → Str → List (Str × List Str)
  | [], s, n => [(s, [n])]
  | (k, v) :: rest, s, n =>
    if s < k then (s, [n]) :: (k, v) :: rest
    else if s = k then (k, v ++ [n]) :: rest
    else (k, v) :: groupIns rest s n

/-- The fully built grouped map of `from_tables`, in the ascending key
order in which the `BTreeMap` is iterated. -/
def groupTables (tables : List TableInfo) : List (Str × List Str) :=
  tables.foldl (fun m t => groupIns m t.schema t.name) []

/-- `TreeState::from_tables` (`src/ui/sidebar.rs:27-52`): one Schema node
(expanded) per distinct schema, followed by its Table nodes. -/
def from_tables (tables : List TableInfo) : TreeState :=
  { nodes := (groupTables tables).flatMap
      (fun g => TreeNode.schema g.1 true :: g.2.map (TreeNode.table g.1)),
    selected := 0,
    scroll_offset := 0 }

/-- The loop of `TreeState::visible_indices` (`src/ui/sidebar.rs:54-72`):
`i` is the index of the head node, the boolean is
`current_schema_expanded`. -/
def visibleIndicesAux : List TreeNode → Nat → Bool → List Nat
  | [], _, _ => []
  | TreeNode.schema _ exp :: rest, i, _ => i :: visibleIndicesAux rest (i + 1) exp
  | TreeNode.table _ _ :: rest, i, cur =>
    if cur then i :: visibleIndicesAux rest (i + 1) cur
    else visibleIndicesAux rest (i + 1) cur

/-- `TreeState::visible_indices` (`src/ui/sidebar.rs:54-72`). -/
def visible_indices (st : TreeState) : List Nat :=
  visibleIndicesAux st.nodes 0 true

/-- `TreeState::visible_nodes` (`src/ui/sidebar.rs:74-79`). -/
def visible_nodes (st : TreeState) : List (Nat × TreeNode) :=
  (visible_indices st).filterMap (fun i => (st.nodes.get? i).map (fun n => (i, n)))

/-- The (schema, name) pair of a Table node, nothing for a Schema node. -/
def tablePairOf : TreeNode → Option (Str × Str)
  | TreeNode.table s n => some (s, n)
  | _ => none

/-- The (schema, name) pairs of the Table nodes of the visible sequence,
in order: the flattening the claim about `from_tables` talks about. -/
def visibleTables (st : TreeState) : List (Str × Str) :=
  (visible_nodes st).filterMap (fun p => tablePairOf p.2)

/-- `TreeState::select_next` (`src/ui/sidebar.rs:81-94`).  `findIdx?`
models `iter().position()`; the final index is always in bounds, so
`getD` is exact. -/
def TreeState.select_next (st : TreeState) : TreeState :=
  let visible := visible_indices st
  if visible.isEmpty then st
  else
    let cur := (visible.findIdx? (fun i => i = st.selected)).getD 0
    { st with selected := visible.getD ((cur + 1) % visible.length) 0 }

/-- `TreeState::select_prev` (`src/ui/sidebar.rs:96-113`). -/
def TreeState.select_prev (st : TreeState) : TreeState :=
  let visible := visible_indices st
  if visible.isEmpty then st
  else
    let cur := (visible.findIdx? (fun i => i = st.selected)).getD 0
    let prev := if cur = 0 then visible.length - 1 else cur - 1
    { st with selected := visible.getD prev 0 }

/-- `TreeState::toggle_selected` (`src/ui/sidebar.rs:115-119`). -/
def TreeState.toggle_selected (st : TreeState) : TreeState :=
  match st.nodes.get? st.selected with
  | some (TreeNode.schema name exp) =>
    { st with nodes := st.nodes.set st.selected (TreeNode.schema name (!exp)) }
  | _ => st

/-- `TreeState::get_selected_table` (`src/ui/sidebar.rs:121-126`). -/
def TreeState.get_selected_table (st : TreeState) : Option (Str × Str) :=
  match st.nodes.get? st.selected with
  | some (TreeNode.table s n) => some (s, n)
  | _ => none

/-- All (schema, name) pairs of the node sequence, visible or not. -/
def flattenPairs (m : List (Str × List Str)) : List (Str × Str) :=
  m.flatMap (fun g => g.2.map (fun n => (g.1, n)))

/-- Every Schema node of the node list is expanded. -/
def allExpanded (nodes : List TreeNode) : Prop :=
  ∀ s b, TreeNode.schema s b ∈ nodes → b = true

/-- The names of the Schema nodes of the node list, in order. -/
def schemaNames (nodes : List TreeNode) : List Str :=
  nodes.filterMap (fun node =>
    match node with
    | TreeNode.schema s _ => some s
    | _ => none)

theorem groupIns_spec (s n : Str) :
    ∀ (m : List (Str × List Str)),
    (m.map Prod.fst).Pairwise (· < ·) →
    (∀ k ∈ m.map Prod.fst, k ≤ s) →
    flattenPairs (groupIns m s n) = flattenPairs m ++ [(s, n)] ∧
    ((groupIns m s n).map Prod.fst).Pairwise (· < ·) ∧
    (∀ k ∈ (groupIns m s n).map Prod.fst, k ∈ m.map Prod.fst ∨ k = s) := by
  intro m
  induction m with
  | nil =>
    intro _ _
    refine ⟨?_, ?_, ?_⟩ <;> simp [groupIns, flattenPairs]
  | cons kv rest ih =>
    obtain ⟨k, v⟩ := kv
    intro hsorted hle
    have hk : k ≤ s := hle k (by simp)
    by_cases hlt : s < k
    · exact absurd (lt_of_lt_of_le hlt hk) (lt_irrefl s)
    · by_cases heq : s = k
      · -- the head key matches; the sortedness forces rest = []
        have hrest : rest = [] := by
          cases hr : rest with
          | nil => rfl
          | cons kv2 rest2 =>
            obtain ⟨k2, v2⟩ := kv2
            have h1 : k < k2 := by
              have := (List.pairwise_cons.mp hsorted).1
              exact this k2 (by simp [hr])
            have h2 : k2 ≤ s := hle k2 (by simp [hr])
            exact absurd (lt_of_lt_of_le h1 (h2.trans (le_of_eq heq))) (lt_irrefl k)
        subst hrest
        subst heq
        refine ⟨?_, ?_, ?_⟩
        · simp [groupIns, flattenPairs]
        · simp [groupIns]
        · simp [groupIns]
      · have hklt : k < s := lt_of_le_of_ne hk (fun h => heq h.symm)
        have hgi : groupIns ((k, v) :: rest) s n = (k, v) :: groupIns rest s n := by
          simp [groupIns, hlt, heq]
        have hsr := (List.pairwise_cons.mp hsorted).2
        have hler : ∀ k2 ∈ rest.map Prod.fst, k2 ≤ s := fun k2 hk2 =>
          hle k2 (by simp [hk2])
        obtain ⟨ih1, ih2, ih3⟩ := ih hsr hler
        refine ⟨?_, ?_, ?_⟩
        · simp only [hgi, flattenPairs, List.flatMap_cons] at *
          rw [ih1]
          simp [List.append_assoc]
        · rw [hgi]
          simp only [List.map_cons]
          refine List.pairwise_cons.mpr ⟨?_, ih2⟩
          intro k2 hk2
          rcases ih3 k2 hk2 with h | h
          · exact (List.pairwise_cons.mp hsorted).1 k2 h
          · exact h ▸ hklt
        · rw [hgi]
          intro k2 hk2
          simp only [List.map_cons, List.mem_cons] at hk2 ⊢
          rcases hk2 with h | h
          · exact Or.inl (Or.inl h)
          · rcases ih3 k2 h with h2 | h2
            · exact Or.inl (Or.inr h2)
            · exact Or.inr h2



theorem groupTables_go (ts : List TableInfo) :
    ∀ (m : List (Str × List Str)),
    (m.map Prod.fst).Pairwise (· < ·) →
    ts.Pairwise (fun a b => a.schema ≤ b.schema) →
    (∀ t ∈ ts, ∀ k ∈ m.map Prod.fst, k ≤ t.schema) →
    flattenPairs (ts.foldl (fun m t => groupIns m t.schema t.name) m) =
      flattenPairs m ++ ts.map (fun t => (t.schema, t.name)) ∧
    ((ts.foldl (fun m t => groupIns m t.schema t.name) m).map Prod.fst).Pairwise (· < ·) := by
  induction ts with
  | nil =>
    intro m hm _ _
    exact ⟨by simp, hm⟩
  | cons t ts ih =>
    intro m hm hts hlink
    have hle : ∀ k ∈ m.map Prod.fst, k ≤ t.schema := hlink t (by simp)
    obtain ⟨hflat, hsorted, hmem⟩ := groupIns_spec t.schema t.name m hm hle
    have hts2 := (List.pairwise_cons.mp hts).2
    have hhead := (List.pairwise_cons.mp hts).1
    have hlink2 : ∀ t2 ∈ ts, ∀ k ∈ (groupIns m t.schema t.name).map Prod.fst,
        k ≤ t2.schema := by
      intro t2 ht2 k hk
      rcases hmem k hk with h | h
      · exact hlink t2 (by simp [ht2]) k h
      · exact h ▸ hhead t2 ht2
    obtain ⟨ih1, ih2⟩ := ih (groupIns m t.schema t.name) hsorted hts2 hlink2
    constructor
    · simp only [List.foldl_cons, ih1, hflat, List.map_cons]
      simp [List.append_assoc]
    · simpa using ih2

theorem visibleIndicesAux_all_expanded :
    ∀ (nodes : List TreeNode) (i : Nat), allExpanded nodes →
    visibleIndicesAux nodes i true = List.range' i nodes.length := by
  intro nodes
  induction nodes with
  | nil => intro i _; simp [visibleIndicesAux]
  | cons node rest ih =>
    intro i hall
    have hrest : allExpanded rest := fun s b hb => hall s b (by simp [hb])
    cases node with
    | schema s b =>
      have hb : b = true := hall s b (by simp)
      subst hb
      simp [visibleIndicesAux, ih (i + 1) hrest, List.range'_succ]
    | table s n =>
      simp [visibleIndicesAux, ih (i + 1) hrest, List.range'_succ]

theorem filterMap_get_range {α β : Type} (l : List α) (g : α → Option β) :
    (List.range l.length).filterMap (fun i => (l.get? i).bind g) = l.filterMap g := by
  induction l with
  | nil => simp
  | cons x xs ih =>
    rw [List.length_cons, List.range_succ_eq_map, List.filterMap_cons,
      List.filterMap_map]
    have hcomp : ((fun i => ((x :: xs).get? i).bind g) ∘ Nat.succ) =
        (fun i => (xs.get? i).bind g) := by
      funext i
      simp
    rw [hcomp, ih]
    cases hg : g x <;> simp [hg]


theorem nodes_filterMap_tablePair (groups : List (Str × List Str)) :
    (groups.flatMap
      (fun g => TreeNode.schema g.1 true :: g.2.map (TreeNode.table g.1))).filterMap
      tablePairOf = flattenPairs groups := by
  induction groups with
  | nil => simp [flattenPairs]
  | cons g gs ih =>
    simp only [List.flatMap_cons, List.filterMap_append, ih, flattenPairs,
      List.filterMap_cons, List.filterMap_map]
    rw [show tablePairOf (TreeNode.schema g.1 true) = none from rfl]
    congr 1
    induction g.2 with
    | nil => simp
    | cons n ns ihn =>
      simp only [List.map_cons, List.filterMap_cons, Function.comp] at *
      rw [show tablePairOf (TreeNode.table g.1 n) = some (g.1, n) from rfl]
      simp_all

theorem filterMap_filterMap_compose {α β γ : Type} (f : α → Option β)
    (g : β → Option γ) (l : List α) :
    (l.filterMap f).filterMap g = l.filterMap (fun x => (f x).bind g) := by
  induction l with
  | nil => rfl
  | cons x xs ih =>
    cases hf : f x with
    | none => simp [List.filterMap_cons, hf, ih]
    | some y =>
      cases hg : g y with
      | none => simp [List.filterMap_cons, hf, hg, ih]
      | some z => simp [List.filterMap_cons, hf, hg, ih]

theorem filterMap_ext {α β : Type} (f g : α → Option β) (l : List α)
    (h : ∀ x ∈ l, f x = g x) : l.filterMap f = l.filterMap g := by
  induction l with
  | nil => rfl
  | cons x xs ih =>
    rw [List.filterMap_cons, List.filterMap_cons, h x (by simp),
      ih (fun y hy => h y (by simp [hy]))]

theorem visibleTables_all_expanded (st : TreeState) (h : allExpanded st.nodes) :
    visibleTables st = st.nodes.filterMap tablePairOf := by
  unfold visibleTables visible_nodes visible_indices
  rw [visibleIndicesAux_all_expanded st.nodes 0 h, List.range'_eq_map_range,
    List.filterMap_map, filterMap_filterMap_compose,
    ← filterMap_get_range st.nodes tablePairOf]
  apply filterMap_ext
  intro i _
  simp only [Function.comp, Nat.zero_add]
  cases st.nodes.get? i with
  | none => rfl
  | some node => rfl

theorem from_tables_allExpanded (ts : List TableInfo) :
    allExpanded (from_tables ts).nodes := by
  intro s b hb
  have hb2 : TreeNode.schema s b ∈ (groupTables ts).flatMap
      (fun g => TreeNode.schema g.1 true :: g.2.map (TreeNode.table g.1)) := hb
  rw [List.mem_flatMap] at hb2
  obtain ⟨g, hg, hmem⟩ := hb2
  rcases List.mem_cons.mp hmem with h | h
  · injection h
  · exfalso
    obtain ⟨n, _, heq⟩ := List.mem_map.mp h
    exact TreeNode.noConfusion heq

theorem schemaNames_flatMap (groups : List (Str × List Str)) :
    schemaNames (groups.flatMap
      (fun g => TreeNode.schema g.1 true :: g.2.map (TreeNode.table g.1))) =
      groups.map Prod.fst := by
  induction groups with
  | nil => rfl
  | cons g gs ih =>
    unfold schemaNames at *
    simp only [List.flatMap_cons, List.filterMap_append, ih, List.filterMap_cons,
      List.filterMap_map, List.map_cons]
    have : ∀ ns : List Str, List.filterMap
        ((fun node => match node with
          | TreeNode.schema s _ => some s
          | _ => none) ∘ TreeNode.table g.1) ns = [] := by
      intro ns
      induction ns with
      | nil => rfl
      | cons n ns2 ihn => simp [List.filterMap_cons, Function.comp, ihn]
    simp [this]

/-- The schema of the first counterexample table is lexicographically after
the second: the catalog order is not schema-ascending. -/
def c3UnsortedTables : List TableInfo :=
  [{ name := strOf "t", schema := strOf "b" },
   { name := strOf "u", schema := strOf "a" }]

/-- C3, counterexample.  `from_tables` groups through a `BTreeMap`, which
iterates its keys in ascending order, not in catalog order: on a catalog
list whose schemas are not ascending, flattening the visible nodes of the
tree yields the refs reordered by schema, not the original ordering. -/
theorem c3_roundtrip_counterexample :
    visibleTables (from_tables c3UnsortedTables) ≠
      c3UnsortedTables.map (fun t => (t.schema, t.name)) ∧
    visibleTables (from_tables c3UnsortedTables) =
      [(strOf "a", strOf "u"), (strOf "b", strOf "t")] :=
  ⟨by decide, by decide⟩

/-- C3, amended.  For a catalog list whose refs are ordered by ascending
schema (which the catalog loaders guarantee via `ORDER BY`), building the
tree with `from_tables` and flattening the visible nodes reproduces the
original (schema, name) ordering exactly; each distinct schema is emitted
as one Schema node, default expanded. -/
theorem c3_roundtrip_amended (ts : List TableInfo)
    (hsorted : ts.Pairwise (fun a b => a.schema ≤ b.schema)) :
    visibleTables (from_tables ts) = ts.map (fun t => (t.schema, t.name)) ∧
    allExpanded (from_tables ts).nodes ∧
    (schemaNames (from_tables ts).nodes).Nodup := by
  obtain ⟨h1, h2⟩ := groupTables_go ts [] (by simp) hsorted (by simp)
  refine ⟨?_, from_tables_allExpanded ts, ?_⟩
  · rw [visibleTables_all_expanded _ (from_tables_allExpanded ts)]
    have hnodes : (from_tables ts).nodes = (groupTables ts).flatMap
        (fun g => TreeNode.schema g.1 true :: g.2.map (TreeNode.table g.1)) := rfl
    rw [hnodes, nodes_filterMap_tablePair]
    simp [flattenPairs] at h1
    exact h1
  · have hnodes : (from_tables ts).nodes = (groupTables ts).flatMap
        (fun g => TreeNode.schema g.1 true :: g.2.map (TreeNode.table g.1)) := rfl
    rw [hnodes, schemaNames_flatMap]
    exact h2.imp (fun h => ne_of_lt h)

/-- The spec's §8 scenario catalog: two `public` tables then one
`reporting` table, schema-ascending. -/
def c3ScenarioTables : List TableInfo :=
  [{ name := strOf "users", schema := strOf "public" },
   { name := strOf "orders", schema := strOf "public" },
   { name := strOf "sales", schema := strOf "reporting" }]

/-- C3, witness: the amended round-trip applied to the spec's concrete
scenario catalog. -/
theorem c3_roundtrip_amended_witness :
    visibleTables (from_tables c3ScenarioTables) =
      c3ScenarioTables.map (fun t => (t.schema, t.name)) :=
  (c3_roundtrip_amended c3ScenarioTables (by decide)).1


/-- `ResultsState` (`src/ui/results.rs:12-18`). -/
structure ResultsState where
  selected_row : Nat
  scroll_offset : Nat
  horizontal_scroll : Nat
  column_widths : List Nat
deriving DecidableEq

/-- `ResultsState::default` / `ResultsState::reset` (`src/ui/results.rs:25-30`). -/
def ResultsState.reset : ResultsState :=
  { selected_row := 0, scroll_offset := 0, horizontal_scroll := 0,
    column_widths := [] }

/-- `ResultsState::select_next` (`src/ui/results.rs:32-37`). -/
def ResultsState.select_next (st : ResultsState) (total_rows : Nat) : ResultsState :=
  if total_rows = 0 then st
  else { st with selected_row := (st.selected_row + 1) % total_rows }

/-- `ResultsState::select_prev` (`src/ui/results.rs:39-48`). -/
def ResultsState.select_prev (st : ResultsState) (total_rows : Nat) : ResultsState :=
  if total_rows = 0 then st
  else if st.selected_row = 0 then { st with selected_row := total_rows - 1 }
  else { st with selected_row := st.selected_row - 1 }

/-- The viewport clamp of `render_results` (`src/ui/results.rs:116-120`),
run after vertical movement, with the given visible height
(`selected_row.saturating_sub(visible_height - 1)` is natural
subtraction). -/
def clampViewport (st : ResultsState) (visible_height : Nat) : ResultsState :=
  if st.selected_row < st.scroll_offset then
    { st with scroll_offset := st.selected_row }
  else if st.selected_row ≥ st.scroll_offset + visible_height then
    { st with scroll_offset := st.selected_row - (visible_height - 1) }
  else st

/-- One vertical-movement input on the result grid: `true` is
`select_next`, `false` is `select_prev`. -/
def applyMoves (ops : List Bool) (total_rows : Nat) (st : ResultsState) :
    ResultsState :=
  ops.foldl (fun st op =>
    if op then st.select_next total_rows else st.select_prev total_rows) st

theorem select_moves_lt (ops : List Bool) (total_rows : Nat)
    (st : ResultsState) (h : st.selected_row < total_rows) :
    (applyMoves ops total_rows st).selected_row < total_rows := by
  induction ops generalizing st with
  | nil => exact h
  | cons op ops ih =>
    have h0 : total_rows ≠ 0 := by omega
    have hstep : ∀ st2 : ResultsState, st2.selected_row < total_rows →
        (if op then st2.select_next total_rows
         else st2.select_prev total_rows : ResultsState).selected_row <
          total_rows := by
      intro st2 h2
      cases op
      · show (st2.select_prev total_rows).selected_row < total_rows
        unfold ResultsState.select_prev
        rw [if_neg h0]
        by_cases hz : st2.selected_row = 0
        · rw [if_pos hz]
          show total_rows - 1 < total_rows
          omega
        · rw [if_neg hz]
          show st2.selected_row - 1 < total_rows
          omega
      · show (st2.select_next total_rows).selected_row < total_rows
        unfold ResultsState.select_next
        rw [if_neg h0]
        show (st2.selected_row + 1) % total_rows < total_rows
        exact Nat.mod_lt _ (Nat.pos_of_ne_zero h0)
    simp only [applyMoves, List.foldl_cons]
    exact ih _ (hstep st h)

theorem clampViewport_spec (st : ResultsState) (vh : Nat) (hvh : 1 ≤ vh) :
    (clampViewport st vh).scroll_offset ≤ (clampViewport st vh).selected_row ∧
    (clampViewport st vh).selected_row < (clampViewport st vh).scroll_offset + vh ∧
    (clampViewport st vh).selected_row = st.selected_row ∧
    (st.selected_row < st.scroll_offset →
      (clampViewport st vh).scroll_offset = st.selected_row) ∧
    (st.scroll_offset + vh ≤ st.selected_row →
      (clampViewport st vh).selected_row =
        (clampViewport st vh).scroll_offset + (vh - 1)) ∧
    (st.scroll_offset ≤ st.selected_row →
      st.selected_row < st.scroll_offset + vh → clampViewport st vh = st) := by
  unfold clampViewport
  split_ifs with h1 h2
  · refine ⟨?_, ?_, rfl, fun _ => rfl, fun hh => ?_, fun ha _ => ?_⟩
    · show st.selected_row ≤ st.selected_row
      exact le_refl _
    · show st.selected_row < st.selected_row + vh
      omega
    · exact absurd hh (by omega)
    · exact absurd ha (by omega)
  · refine ⟨?_, ?_, rfl, fun hh => ?_, fun _ => ?_, fun _ hb => ?_⟩
    · show st.selected_row - (vh - 1) ≤ st.selected_row
      omega
    · show st.selected_row < st.selected_row - (vh - 1) + vh
      omega
    · exact absurd hh h1
    · show st.selected_row = st.selected_row - (vh - 1) + (vh - 1)
      omega
    · exact absurd h2 (by omega)
  · refine ⟨?_, ?_, rfl, fun hh => ?_, fun hh => ?_, fun _ _ => rfl⟩
    · show st.scroll_offset ≤ st.selected_row
      omega
    · show st.selected_row < st.scroll_offset + vh
      omega
    · exact absurd hh h1
    · exact absurd hh (by omega)



/-- C4.  After any sequence of `select_next`/`select_prev` calls with the
actual row count (rows non-empty) starting from the reset state, the
selected row stays in range; and after the viewport clamp with
`visible_height ≥ 1` the invariant
`scroll_offset ≤ selected_row < scroll_offset + visible_height` holds, the
clamp never moves the selection, and it is minimal: a selection before the
window pulls the window start down to the selection, a selection at or
beyond `scroll_offset + visible_height` advances the window start so the
selection is the last visible row, and a selection already inside the
window leaves the state untouched. -/
theorem c4_viewport_invariant (ops : List Bool) (total_rows vh : Nat)
    (htotal : 0 < total_rows) (hvh : 1 ≤ vh) :
    (applyMoves ops total_rows ResultsState.reset).selected_row < total_rows ∧
    (clampViewport (applyMoves ops total_rows ResultsState.reset) vh).scroll_offset ≤
      (clampViewport (applyMoves ops total_rows ResultsState.reset) vh).selected_row ∧
    (clampViewport (applyMoves ops total_rows ResultsState.reset) vh).selected_row <
      (clampViewport (applyMoves ops total_rows ResultsState.reset) vh).scroll_offset + vh ∧
    (clampViewport (applyMoves ops total_rows ResultsState.reset) vh).selected_row =
      (applyMoves ops total_rows ResultsState.reset).selected_row ∧
    ((applyMoves ops total_rows ResultsState.reset).selected_row <
        (applyMoves ops total_rows ResultsState.reset).scroll_offset →
      (clampViewport (applyMoves ops total_rows ResultsState.reset) vh).scroll_offset =
        (applyMoves ops total_rows ResultsState.reset).selected_row) ∧
    ((applyMoves ops total_rows ResultsState.reset).scroll_offset + vh ≤
        (applyMoves ops total_rows ResultsState.reset).selected_row →
      (clampViewport (applyMoves ops total_rows ResultsState.reset) vh).selected_row =
        (clampViewport (applyMoves ops total_rows ResultsState.reset) vh).scroll_offset +
          (vh - 1)) ∧
    ((applyMoves ops total_rows ResultsState.reset).scroll_offset ≤
        (applyMoves ops total_rows ResultsState.reset).selected_row →
      (applyMoves ops total_rows ResultsState.reset).selected_row <
        (applyMoves ops total_rows ResultsState.reset).scroll_offset + vh →
      clampViewport (applyMoves ops total_rows ResultsState.reset) vh =
        applyMoves ops total_rows ResultsState.reset) := by
  have h1 : (ResultsState.reset).selected_row < total_rows := htotal
  have h2 := select_moves_lt ops total_rows ResultsState.reset h1
  have h3 := clampViewport_spec (applyMoves ops total_rows ResultsState.reset) vh hvh
  exact ⟨h2, h3.1, h3.2.1, h3.2.2.1, h3.2.2.2.1, h3.2.2.2.2.1, h3.2.2.2.2.2⟩

/-- C4, witness: three movements over two rows with a height-one viewport. -/
theorem c4_viewport_invariant_witness :
    (clampViewport (applyMoves [true, true, false] 2 ResultsState.reset) 1).scroll_offset ≤
      (clampViewport (applyMoves [true, true, false] 2 ResultsState.reset) 1).selected_row ∧
    (clampViewport (applyMoves [true, true, false] 2 ResultsState.reset) 1).selected_row <
      (clampViewport (applyMoves [true, true, false] 2 ResultsState.reset) 1).scroll_offset + 1 :=
  ⟨(c4_viewport_invariant [true, true, false] 2 1 (by decide) (by decide)).2.1,
   (c4_viewport_invariant [true, true, false] 2 1 (by decide) (by decide)).2.2.1⟩


theorem findIdxP_nodup_get (l : List Nat) (a : Nat) :
    ∀ (i s : Nat), l.Nodup → l.get? i = some a →
    l.findIdx? (fun x => x = a) s = some (s + i) := by
  induction l with
  | nil => intro i s _ hget; simp at hget
  | cons x xs ih =>
    intro i s hnd hget
    cases i with
    | zero =>
      have hx : x = a := by simpa using hget
      rw [List.findIdx?_cons, if_pos (by simp [hx])]
      simp
    | succ j =>
      have hget2 : xs.get? j = some a := by simpa using hget
      have hmem : a ∈ xs := List.get?_mem hget2
      have hne : x ≠ a := by
        intro hxa
        exact (List.nodup_cons.mp hnd).1 (hxa ▸ hmem)
      rw [List.findIdx?_cons, if_neg (by simp [hne])]
      rw [ih j (s + 1) (List.nodup_cons.mp hnd).2 hget2]
      congr 1
      omega

theorem findIdxP_not_mem (l : List Nat) (a : Nat) (h : a ∉ l) :
    l.findIdx? (fun x => x = a) = none :=
  List.findIdx?_eq_none_iff.mpr fun x hx => by
    simp only [decide_eq_false_iff_not]
    intro hxa
    exact h (hxa ▸ hx)

/-- C5.  Tree `select_next`/`select_prev` move the selection cyclically
through the visible indices: on an empty visible sequence both are no-ops;
when the selection is visible at position `i` they move to positions
`(i + 1) % n` and (cyclically) `i - 1`; when the current selection is not
in the visible set the current position is treated as not found and
defaults to index 0 of the visible set, so the movement is taken from
position 0. -/
theorem c5_tree_selection (st : TreeState) :
    (visible_indices st = [] →
      st.select_next = st ∧ st.select_prev = st) ∧
    (∀ i : Nat,
      (visible_indices st).Nodup →
      (visible_indices st).get? i = some st.selected →
      (st.select_next).selected =
        (visible_indices st).getD ((i + 1) % (visible_indices st).length) 0 ∧
      (st.select_prev).selected =
        (visible_indices st).getD
          (if i = 0 then (visible_indices st).length - 1 else i - 1) 0) ∧
    (st.selected ∉ visible_indices st → visible_indices st ≠ [] →
      (st.select_next).selected =
        (visible_indices st).getD (1 % (visible_indices st).length) 0 ∧
      (st.select_prev).selected =
        (visible_indices st).getD ((visible_indices st).length - 1) 0) := by
  refine ⟨fun hemp => ?_, fun i hnd hget => ?_, fun hmem hne => ?_⟩
  · constructor <;>
      simp [TreeState.select_next, TreeState.select_prev, hemp]
  · have hfind : (visible_indices st).findIdx? (fun x => x = st.selected) = some i :=
      by simpa using findIdxP_nodup_get (visible_indices st) st.selected i 0 hnd hget
    have hne : (visible_indices st).isEmpty = false := by
      cases hv : visible_indices st with
      | nil => rw [hv] at hget; simp at hget
      | cons x xs => simp
    constructor
    · simp [TreeState.select_next, hne, hfind]
    · simp [TreeState.select_prev, hne, hfind]
  · have hfind : (visible_indices st).findIdx? (fun x => x = st.selected) = none :=
      findIdxP_not_mem _ _ hmem
    have hne2 : (visible_indices st).isEmpty = false := by
      cases hv : visible_indices st with
      | nil => exact absurd hv hne
      | cons x xs => simp
    constructor
    · simp [TreeState.select_next, hne2, hfind]
    · simp [TreeState.select_prev, hne2, hfind]

/-- A concrete tree: one expanded schema with two tables; the selection
starts on the schema node. -/
def c5Tree : TreeState := from_tables c3ScenarioTables

/-- C5, witness: the theorem applied to the concrete scenario tree, with
the selection on node 0 (visible position 0): `select_next` moves to
visible position 1 and `select_prev` wraps to the last visible node. -/
theorem c5_tree_selection_witness :
    (c5Tree.select_next).selected =
      (visible_indices c5Tree).getD ((0 + 1) % (visible_indices c5Tree).length) 0 ∧
    (c5Tree.select_prev).selected =
      (visible_indices c5Tree).getD
        (if (0 : Nat) = 0 then (visible_indices c5Tree).length - 1 else 0 - 1) 0 :=
  (c5_tree_selection c5Tree).2.1 0 (by decide) (by decide)


/-- The three backend kinds of `DatabaseConnection`
(`src/db/connection.rs:6-10`): Dialect A, B, C. -/
inductive Dialect
  | postgres | mysql | sqlite
deriving DecidableEq

/-- Backend selection and connection-string normalization of
`DatabaseConnection::connect` (`src/db/connection.rs:13-31`).  The pool
connection itself is external I/O; what the code decides is the backend
and the effective connection string handed to the pool, or an error for an
unrecognized form. -/
def connectDispatch (s : Str) : Except Str (Dialect × Str) :=
  if (strOf "postgres://").isPrefixOf s || (strOf "postgresql://").isPrefixOf s then
    .ok (.postgres, s)
  else if (strOf "mysql://").isPrefixOf s then
    .ok (.mysql, s)
  else if (strOf "sqlite://").isPrefixOf s || (strOf ".db").isSuffixOf s then
    .ok (.sqlite,
      if (strOf "sqlite://").isPrefixOf s then s else strOf "sqlite://" ++ s)
  else
    .error (strOf "Unsupported database type")

theorem isPrefixOf_append_self (l r : Str) : l.isPrefixOf (l ++ r) = true := by
  induction l with
  | nil => simp [List.isPrefixOf]
  | cons c cs ih => simp [List.isPrefixOf, ih]

/-- C6.  A `postgres://` or `postgresql://` prefix yields Dialect A; else a
`mysql://` prefix yields Dialect B; else a `sqlite://` prefix or a `.db`
suffix yields Dialect C with the connection string normalized to a
`sqlite://` form; any other form is an error.  In particular both
`"sqlite://test.db"` and `"test.db"` resolve to Dialect C with effective
connection string `"sqlite://test.db"`. -/
theorem c6_backend_selection (s : Str) :
    (((strOf "postgres://").isPrefixOf s ||
        (strOf "postgresql://").isPrefixOf s) = true →
      connectDispatch s = .ok (.postgres, s)) ∧
    (((strOf "postgres://").isPrefixOf s ||
        (strOf "postgresql://").isPrefixOf s) = false →
      (strOf "mysql://").isPrefixOf s = true →
      connectDispatch s = .ok (.mysql, s)) ∧
    (((strOf "postgres://").isPrefixOf s ||
        (strOf "postgresql://").isPrefixOf s) = false →
      (strOf "mysql://").isPrefixOf s = false →
      ((strOf "sqlite://").isPrefixOf s || (strOf ".db").isSuffixOf s) = true →
      connectDispatch s = .ok (.sqlite,
        if (strOf "sqlite://").isPrefixOf s then s
        else strOf "sqlite://" ++ s) ∧
      (strOf "sqlite://").isPrefixOf
        (if (strOf "sqlite://").isPrefixOf s then s
         else strOf "sqlite://" ++ s) = true) ∧
    (((strOf "postgres://").isPrefixOf s ||
        (strOf "postgresql://").isPrefixOf s) = false →
      (strOf "mysql://").isPrefixOf s = false →
      ((strOf "sqlite://").isPrefixOf s || (strOf ".db").isSuffixOf s) = false →
      connectDispatch s = .error (strOf "Unsupported database type")) ∧
    connectDispatch (strOf "sqlite://test.db") =
      .ok (.sqlite, strOf "sqlite://test.db") ∧
    connectDispatch (strOf "test.db") =
      .ok (.sqlite, strOf "sqlite://test.db") := by
  refine ⟨fun h1 => ?_, fun h1 h2 => ?_, fun h1 h2 h3 => ⟨?_, ?_⟩,
    fun h1 h2 h3 => ?_, by rfl, by rfl⟩
  · simp [connectDispatch, h1]
  · simp [connectDispatch, h1, h2]
  · simp [connectDispatch, h1, h2, h3]
  · cases hp : (strOf "sqlite://").isPrefixOf s with
    | true =>
      rw [if_pos rfl]
      exact hp
    | false =>
      rw [if_neg (by simp)]
      exact isPrefixOf_append_self (strOf "sqlite://") s
  · simp [connectDispatch, h1, h2, h3]

/-- C6, witness: the theorem applied to a concrete `mysql://` string. -/
theorem c6_backend_selection_witness :
    connectDispatch (strOf "mysql://db") = .ok (.mysql, strOf "mysql://db") :=
  (c6_backend_selection (strOf "mysql://db")).2.1 (by decide) (by decide)


/-- `QueryResult` (`src/db/mod.rs`). -/
structure QueryResult where
  columns : List Str
  rows : List (List Str)
  affected_rows : Nat
deriving DecidableEq

/-- `QueryResult::empty` (`src/db/mod.rs`). -/
def QueryResult.empty : QueryResult :=
  { columns := [], rows := [], affected_rows := 0 }

/-- Display width of a string (`UnicodeWidthStr::width`), modelled as the
number of scalar values; the two agree on ASCII content, and the clamping
arithmetic under scrutiny is independent of the measure. -/
def cellWidth (s : Str) : Nat := s.length

/-- The inner loop of `calculate_column_widths`
(`src/ui/results.rs:72-79`): for each cell at an index below the width
count, raise that column's width to the cell's clamped width. -/
def updateRow : List Nat → List Str → List Nat
  | ws, [] => ws
  | [], _ => []
  | w :: ws, c :: cs => max w (min (max (cellWidth c) 8) 50) :: updateRow ws cs

/-- `ResultsState::calculate_column_widths` (`src/ui/results.rs:60-89`):
header widths clamped to `[8, 40]`, cell widths to `[8, 50]`, column-wise
maximum, then `+ 2` padding clamped to `[12, 50]`. -/
def calculate_column_widths (result : QueryResult) : List Nat :=
  if result.columns = [] then []
  else
    let widths0 := result.columns.map (fun h => min (max (cellWidth h) 8) 40)
    let widths1 := result.rows.foldl updateRow widths0
    widths1.map (fun w => min (max (w + 2) 12) 50)

/-- The width-cache step of `render_results` (`src/ui/results.rs:100-112`):
nothing is rendered (and the cache is untouched) for a column-less result;
otherwise the widths are recomputed exactly when the cache is empty or its
length differs from the column count. -/
def renderWidths (st : ResultsState) (result : QueryResult) : List Nat :=
  if result.columns = [] then st.column_widths
  else if st.column_widths = [] ∨ st.column_widths.length ≠ result.columns.length then
    calculate_column_widths result
  else st.column_widths

/-- Modelled from the spec's words (§4.5): per column, width =
clamp(max(header length, max over rows of cell length) + padding(2),
min 12, max 50). -/
def specColumnWidths (result : QueryResult) : List Nat :=
  (List.range result.columns.length).map (fun i =>
    min (max ((max (cellWidth (result.columns.getD i []))
      ((result.rows.map (fun r => cellWidth (r.getD i []))).foldr max 0)) + 2) 12) 50)

/-- The per-column closed form of what the code computes: header width
clamped to `[8, 40]` and cell widths clamped to `[8, 50]` before the
maximum, then `+ 2` clamped to `[12, 50]` (a missing cell of a short row
contributes the neutral clamped width 8). -/
def amendedColumnWidths (result : QueryResult) : List Nat :=
  (List.range result.columns.length).map (fun i =>
    min (max ((max (min (max (cellWidth (result.columns.getD i [])) 8) 40)
      ((result.rows.map (fun r => min (max (cellWidth (r.getD i [])) 8) 50)).foldr
        max 0)) + 2) 12) 50)

theorem updateRow_length (ws : List Nat) (r : List Str) :
    (updateRow ws r).length = ws.length := by
  induction ws generalizing r with
  | nil => cases r <;> rfl
  | cons w ws ih =>
    cases r with
    | nil => rfl
    | cons c cs => simp [updateRow, ih]

theorem foldl_updateRow_length (rows : List (List Str)) (ws : List Nat) :
    (rows.foldl updateRow ws).length = ws.length := by
  induction rows generalizing ws with
  | nil => rfl
  | cons r rows ih => simp [List.foldl_cons, ih, updateRow_length]

theorem updateRow_getD (ws : List Nat) (r : List Str) (i : Nat)
    (hi : i < ws.length) (h8 : 8 ≤ ws.getD i 0) :
    (updateRow ws r).getD i 0 =
      max (ws.getD i 0) (min (max (cellWidth (r.getD i [])) 8) 50) := by
  induction ws generalizing r i with
  | nil => simp at hi
  | cons w ws ih =>
    cases r with
    | nil =>
      simp only [updateRow]
      have hcell : min (max (cellWidth (([] : List Str).getD i [])) 8) 50 = 8 := by
        simp [cellWidth, List.getD]
      rw [hcell]
      omega
    | cons c cs =>
      cases i with
      | zero => simp [updateRow, List.getD]
      | succ j =>
        simp only [updateRow]
        have hj : j < ws.length := by simpa using hi
        have h8j : 8 ≤ ws.getD j 0 := by simpa [List.getD_cons_succ] using h8
        simpa [List.getD_cons_succ] using ih cs j hj h8j



theorem foldl_updateRow_getD (rows : List (List Str)) (ws : List Nat) (i : Nat)
    (hi : i < ws.length) (h8 : 8 ≤ ws.getD i 0) :
    (rows.foldl updateRow ws).getD i 0 =
      max (ws.getD i 0)
        ((rows.map (fun r => min (max (cellWidth (r.getD i [])) 8) 50)).foldr
          max 0) := by
  induction rows generalizing ws with
  | nil => simp
  | cons r rows ih =>
    simp only [List.foldl_cons, List.map_cons, List.foldr_cons]
    have hlen : i < (updateRow ws r).length := by
      rw [updateRow_length]
      exact hi
    have h8b : 8 ≤ (updateRow ws r).getD i 0 := by
      rw [updateRow_getD ws r i hi h8]
      omega
    rw [ih (updateRow ws r) hlen h8b, updateRow_getD ws r i hi h8]
    omega

theorem list_ext_getD (l1 l2 : List Nat) (hlen : l1.length = l2.length)
    (h : ∀ i, i < l1.length → l1.getD i 0 = l2.getD i 0) : l1 = l2 := by
  induction l1 generalizing l2 with
  | nil =>
    cases l2 with
    | nil => rfl
    | cons y ys => simp at hlen
  | cons x xs ih =>
    cases l2 with
    | nil => simp at hlen
    | cons y ys =>
      have hx : x = y := h 0 (by simp)
      have hxs : xs = ys := by
        refine ih ys (by simpa using hlen) (fun i hi => ?_)
        simpa [List.getD_cons_succ] using h (i + 1) (by simpa using hi)
      rw [hx, hxs]

theorem getD_map_lt {α β : Type} (f : α → β) (l : List α) (i : Nat)
    (hi : i < l.length) (d : β) (d2 : α) :
    (l.map f).getD i d = f (l.getD i d2) := by
  rw [List.getD_eq_getD_get?, List.getD_eq_getD_get?, List.get?_map,
    List.get?_eq_get hi]
  rfl

theorem range_getD (n i : Nat) (hi : i < n) : (List.range n).getD i 0 = i := by
  rw [List.getD_eq_getD_get?, List.get?_eq_get (by simpa using hi)]
  simp

theorem calculate_column_widths_closed (result : QueryResult) :
    calculate_column_widths result = amendedColumnWidths result := by
  by_cases hc : result.columns = []
  · simp [calculate_column_widths, amendedColumnWidths, hc]
  · unfold calculate_column_widths amendedColumnWidths
    rw [if_neg hc]
    have hlen0 : (result.columns.map
        (fun h => min (max (cellWidth h) 8) 40)).length = result.columns.length := by
      simp
    apply list_ext_getD
    · simp [foldl_updateRow_length]
    · intro i hi
      have hic : i < result.columns.length := by
        simpa [foldl_updateRow_length] using hi
      have hiw : i < (result.columns.map
          (fun h => min (max (cellWidth h) 8) 40)).length := by
        simpa using hic
      have h8 : 8 ≤ (result.columns.map
          (fun h => min (max (cellWidth h) 8) 40)).getD i 0 := by
        rw [getD_map_lt _ _ i hic 0 []]
        omega
      rw [getD_map_lt _ _ i (by simpa [foldl_updateRow_length] using hic) 0 0,
        foldl_updateRow_getD _ _ i hiw h8,
        getD_map_lt _ _ i hic 0 [],
        getD_map_lt _ _ i (by simpa using hic) 0 0,
        range_getD result.columns.length i hic]



/-- A single-column result whose header is 45 characters long, with no
rows. -/
def c7HeaderResult : QueryResult :=
  { columns := [List.replicate 45 'A'], rows := [], affected_rows := 0 }

/-- C7, counterexample.  The claimed formula gives
clamp(45 + 2, 12, 50) = 47 for a 45-character header, but the code clamps
the header width to at most 40 before adding the padding, yielding 42. -/
theorem c7_width_formula_counterexample :
    calculate_column_widths c7HeaderResult = [42] ∧
    specColumnWidths c7HeaderResult = [47] ∧
    calculate_column_widths c7HeaderResult ≠ specColumnWidths c7HeaderResult :=
  ⟨by decide, by decide, by decide⟩

/-- C7, amended.  Per column the computed width is
clamp(max(clamp(header length, 8, 40), max over rows of clamp(cell length,
8, 50)) + 2, 12, 50); and the widths are recomputed exactly when the
cached width count differs from the result's column count (for a non-empty
column list — a column-less result renders nothing and leaves the cache
untouched), not on every redraw. -/
theorem c7_column_widths_amended (st : ResultsState) (result : QueryResult) :
    calculate_column_widths result = amendedColumnWidths result ∧
    (result.columns ≠ [] → st.column_widths.length = result.columns.length →
      renderWidths st result = st.column_widths) ∧
    (result.columns ≠ [] → st.column_widths.length ≠ result.columns.length →
      renderWidths st result = calculate_column_widths result) ∧
    (result.columns = [] → renderWidths st result = st.column_widths) := by
  refine ⟨calculate_column_widths_closed result, fun hc hlen => ?_,
    fun hc hlen => ?_, fun hc => ?_⟩
  · have hcond : ¬(st.column_widths = [] ∨
        st.column_widths.length ≠ result.columns.length) := by
      rintro (h | h)
      · rw [h] at hlen
        exact hc (List.eq_nil_of_length_eq_zero hlen.symm)
      · exact h hlen
    unfold renderWidths
    rw [if_neg hc, if_neg hcond]
  · unfold renderWidths
    rw [if_neg hc, if_pos (Or.inr hlen)]
  · unfold renderWidths
    rw [if_pos hc]

/-- C7, witness: a cached width list of matching column count is kept
as-is across a redraw. -/
theorem c7_column_widths_amended_witness :
    renderWidths
        { selected_row := 0, scroll_offset := 0, horizontal_scroll := 0,
          column_widths := [12, 13] }
        { columns := [strOf "id", strOf "name"], rows := [], affected_rows := 0 } =
      [12, 13] :=
  (c7_column_widths_amended
    { selected_row := 0, scroll_offset := 0, horizontal_scroll := 0,
      column_widths := [12, 13] }
    { columns := [strOf "id", strOf "name"], rows := [], affected_rows := 0 }).2.1
    (by decide) (by decide)


/-- UTF-8 byte length of one unicode scalar value. -/
def utf8Len (c : Char) : Nat :=
  if c.toNat < 0x80 then 1
  else if c.toNat < 0x800 then 2
  else if c.toNat < 0x10000 then 3
  else 4

/-- `str::len` — the UTF-8 byte length of a Rust string. -/
def byteLen (s : Str) : Nat := (s.map utf8Len).sum

/-- Rust byte slicing `&c[..n]`: `some` of the scalar-value prefix when
`n` falls on a character boundary, `none` — a panic — otherwise (or when
`n` exceeds the byte length). -/
def byteSlice : Str → Nat → Option Str
  | _, 0 => some []
  | [], _ + 1 => none
  | c :: cs, n + 1 =>
    if utf8Len c ≤ n + 1 then
      (byteSlice cs (n + 1 - utf8Len c)).map (fun r => c :: r)
    else none

/-- The display transformation of one cell in `render_results`
(`src/ui/results.rs:148-151`): `c.len() > 47` and `&c[..47]` are
byte-based; `none` models the byte-slice panic at a non-boundary index. -/
def displayCell (c : Str) : Option Str :=
  if byteLen c > 47 then (byteSlice c 47).map (fun t => t ++ strOf "...")
  else some c

/-- A 48-byte cell of 24 two-byte characters. -/
def c8PanicCell : Str := List.replicate 24 'é'

/-- C8.  The display truncation is byte-based, not character-based: on a
48-byte cell of 24 two-byte characters the code takes the `len() > 47`
branch and byte-slices at index 47, which is not a character boundary — a
panic (`none`), where the claim promises the transformation never fails.
On ASCII content the byte slice is the 47-character prefix plus an
ellipsis, and short cells pass through unchanged. -/
theorem c8_truncation_panics :
    byteLen c8PanicCell = 48 ∧
    displayCell c8PanicCell = none ∧
    displayCell (List.replicate 48 'a') =
      some (List.replicate 47 'a' ++ strOf "...") ∧
    displayCell (strOf "short") = some (strOf "short") := by
  refine ⟨by decide, by decide, by decide, by decide⟩

/-- One fetched row as the executor observes it through sqlx: the per-row
column metadata (`row.columns()`) and the raw value at each index
(`row.try_get_raw(idx)`, `none` when it fails). -/
structure RawRow where
  cols : List Str
  cells : List (Option RawValue)

/-- `DatabaseConnection::execute_query` (`src/db/connection.rs:87-171`) as
a function of the fetch outcome, parametrized by the backend's extract
function (the three `match` arms are identical up to that function): a
fetch error is propagated; an empty row list yields `QueryResult::empty()`
before any column metadata is read; otherwise the columns come from the
first row's metadata, each row is normalized cell-by-cell over the column
indices, and `affected_rows` is the number of returned rows. -/
def conn_execute_query (extract : Option RawValue → Str)
    (fetched : Except Str (List RawRow)) : Except Str QueryResult :=
  match fetched with
  | .error e => .error e
  | .ok rows =>
    match rows with
    | [] => .ok QueryResult.empty
    | r0 :: _ =>
      .ok { columns := r0.cols,
            rows := rows.map (fun r =>
              (List.range r0.cols.length).map (fun i =>
                extract (r.cells.getD i none))),
            affected_rows := rows.length }

/-- Whitespace as used by `str::trim`, modelled on its ASCII subset. -/
def isWhitespaceChar (c : Char) : Bool :=
  c = ' ' || c = '\t' || c = '\n' || c = '\r'

/-- `str::trim`. -/
def trimStr (s : Str) : Str :=
  ((s.dropWhile isWhitespaceChar).reverse.dropWhile isWhitespaceChar).reverse

/-- `execute_query` of `src/main.rs:370-389`: an all-whitespace query is a
no-op, as is the absence of a connection; a backend error replaces the
current result with the synthetic one-row, one-column `"Error"` result;
a success installs the new result. -/
def app_execute_query (prev : QueryResult) (hasConn : Bool) (query : Str)
    (run : Except Str QueryResult) : QueryResult :=
  if (trimStr query).isEmpty then prev
  else if hasConn then
    match run with
    | .ok r => r
    | .error e =>
      { columns := [strOf "Error"], rows := [[e]], affected_rows := 0 }
  else prev

/-- C9.  A backend-level failure is surfaced as its single opaque message
string by the executor, and the caller replaces the result with a
one-row, one-column `"Error"` result carrying that message and
`affected_rows = 0`; a successful empty-row fetch instead yields the empty
`QueryResult` (empty columns, empty rows, `affected_rows = 0`). -/
theorem c9_error_result_shape (prev : QueryResult) (q e : Str)
    (extract : Option RawValue → Str) (run : Except Str QueryResult) :
    conn_execute_query extract (.error e) = .error e ∧
    conn_execute_query extract (.ok []) = .ok QueryResult.empty ∧
    QueryResult.empty =
      { columns := [], rows := [], affected_rows := 0 } ∧
    ((trimStr q).isEmpty = false →
      app_execute_query prev true q (.error e) =
        { columns := [strOf "Error"], rows := [[e]], affected_rows := 0 }) ∧
    ((trimStr q).isEmpty = true → app_execute_query prev true q run = prev) ∧
    app_execute_query prev false q run = prev := by
  refine ⟨rfl, rfl, rfl, fun h => ?_, fun h => ?_, ?_⟩
  · simp [app_execute_query, h]
  · simp [app_execute_query, h]
  · by_cases h : (trimStr q).isEmpty
    · simp [app_execute_query, h]
    · simp [app_execute_query, h]

/-- C9, witness: the theorem applied to a concrete query and error
message. -/
theorem c9_error_result_shape_witness :
    app_execute_query QueryResult.empty true (strOf "SELECT nope")
        (.error (strOf "no such table")) =
      { columns := [strOf "Error"], rows := [[strOf "no such table"]],
        affected_rows := 0 } :=
  (c9_error_result_shape QueryResult.empty (strOf "SELECT nope")
    (strOf "no such table") extract_sqlite_value
    (.ok QueryResult.empty)).2.2.2.1 (by decide)


/-- The SQLite arm of `DatabaseConnection::get_tables`
(`src/db/connection.rs:69-84`): the catalog query returns bare table
names, and every ref is given the fixed schema `"main"`. -/
def get_tables_sqlite (names : List Str) : List TableInfo :=
  names.map (fun n => { schema := strOf "main", name := n })

/-- The default table query issued on selecting a table in the sidebar
(`src/main.rs:309-312`). -/
def default_table_query (schema name : Str) : Str :=
  strOf "SELECT * FROM " ++ schema ++ strOf "." ++ name ++ strOf " LIMIT 100"

theorem groupIns_const (v : List Str) (n : Str) :
    groupIns [(strOf "main", v)] (strOf "main") n = [(strOf "main", v ++ [n])] := by
  simp [groupIns]

theorem groupTables_const (names : List Str) :
    ∀ v : List Str,
    (get_tables_sqlite names).foldl (fun m t => groupIns m t.schema t.name)
        [(strOf "main", v)] = [(strOf "main", v ++ names)] := by
  induction names with
  | nil => intro v; simp [get_tables_sqlite]
  | cons n ns ih =>
    intro v
    simp only [get_tables_sqlite, List.map_cons, List.foldl_cons]
    have h1 : groupIns [(strOf "main", v)] (strOf "main") n =
        [(strOf "main", v ++ [n])] := groupIns_const v n
    rw [h1]
    have h2 := ih (v ++ [n])
    simp only [get_tables_sqlite] at h2
    rw [h2]
    simp

theorem groupTables_sqlite (names : List Str) (h : names ≠ []) :
    groupTables (get_tables_sqlite names) = [(strOf "main", names)] := by
  cases names with
  | nil => exact absurd rfl h
  | cons n ns =>
    unfold groupTables
    simp only [get_tables_sqlite, List.map_cons, List.foldl_cons]
    have h0 : groupIns [] (strOf "main") n = [(strOf "main", [n])] := rfl
    rw [h0]
    have h2 := groupTables_const ns [n]
    simp only [get_tables_sqlite] at h2
    rw [h2]
    simp

theorem mem_table_from_tables (ts : List TableInfo) (s n : Str)
    (h : TreeNode.table s n ∈ (from_tables ts).nodes) :
    ∃ g ∈ groupTables ts, s = g.1 ∧ n ∈ g.2 := by
  have h2 : TreeNode.table s n ∈ (groupTables ts).flatMap
      (fun g => TreeNode.schema g.1 true :: g.2.map (TreeNode.table g.1)) := h
  rw [List.mem_flatMap] at h2
  obtain ⟨g, hg, hmem⟩ := h2
  refine ⟨g, hg, ?_⟩
  rcases List.mem_cons.mp hmem with heq | hmem2
  · exact TreeNode.noConfusion heq
  · obtain ⟨m, hm, heq⟩ := List.mem_map.mp hmem2
    injection heq with h1 h2
    exact ⟨h1.symm, h2 ▸ hm⟩

/-- C10.  The SQLite catalog loader assigns the fixed schema `"main"` to
every table ref, so the tree built from a (non-empty) SQLite catalog has
exactly one Schema node, named `"main"`; any table selected in such a tree
has schema `"main"`, and the default query it triggers is
`SELECT * FROM main.<table> LIMIT 100`. -/
theorem c10_sqlite_schema_main (names : List Str) :
    (∀ t ∈ get_tables_sqlite names, t.schema = strOf "main") ∧
    (names ≠ [] →
      schemaNames (from_tables (get_tables_sqlite names)).nodes =
        [strOf "main"]) ∧
    (∀ st : TreeState,
      st.nodes = (from_tables (get_tables_sqlite names)).nodes →
      ∀ s n, st.get_selected_table = some (s, n) →
      s = strOf "main" ∧
      default_table_query s n =
        strOf "SELECT * FROM main." ++ n ++ strOf " LIMIT 100") := by
  refine ⟨?_, fun hne => ?_, fun st hnodes s n hsel => ?_⟩
  · intro t ht
    obtain ⟨m, _, heq⟩ := List.mem_map.mp ht
    rw [← heq]
  · have hnodes : (from_tables (get_tables_sqlite names)).nodes =
        (groupTables (get_tables_sqlite names)).flatMap
          (fun g => TreeNode.schema g.1 true :: g.2.map (TreeNode.table g.1)) := rfl
    rw [hnodes, schemaNames_flatMap, groupTables_sqlite names hne]
    rfl
  · have hget : st.nodes.get? st.selected = some (TreeNode.table s n) := by
      unfold TreeState.get_selected_table at hsel
      rcases hcase : st.nodes.get? st.selected with _ | node
      · rw [hcase] at hsel
        exact Option.noConfusion hsel
      · rw [hcase] at hsel
        cases node with
        | schema s2 b => exact Option.noConfusion hsel
        | table s2 n2 =>
          have hpair : (s2, n2) = (s, n) := by injection hsel
          injection hpair with hs2 hn2
          rw [hs2, hn2]
    have hmem : TreeNode.table s n ∈ (from_tables (get_tables_sqlite names)).nodes := by
      rw [← hnodes]
      exact List.get?_mem hget
    obtain ⟨g, hg, hs, _⟩ := mem_table_from_tables _ s n hmem
    have hnames_ne : names ≠ [] := by
      intro h0
      rw [h0] at hg
      simp [groupTables, get_tables_sqlite] at hg
    rw [groupTables_sqlite names hnames_ne] at hg
    have hgm : g = (strOf "main", names) := by simpa using hg
    have hsm : s = strOf "main" := by rw [hs, hgm]
    refine ⟨hsm, ?_⟩
    rw [hsm]
    unfold default_table_query
    have hlit : strOf "SELECT * FROM " ++ strOf "main" ++ strOf "." =
        strOf "SELECT * FROM main." := by decide
    rw [hlit]

/-- C10, witness: the theorem applied to a one-table SQLite catalog. -/
theorem c10_sqlite_schema_main_witness :
    schemaNames (from_tables (get_tables_sqlite [strOf "users"])).nodes =
      [strOf "main"] :=
  (c10_sqlite_schema_main [strOf "users"]).2.1 (by decide)

end Crux
